import Mathlib

/-!
Verification of the thesis-translate concurrent translation pipeline.

The development shallowly embeds the Python sources:
  * `src/utils/token_counter.py`   (TokenCounter singleton)
  * `src/core/streaming_translator.py`  (chunk planner, retrying engine wrapper,
    sequential/parallel executor, output writer)
  * `src/core/file_watcher.py`     (polling watcher state machine)
  * `src/core/translation_worker.py` (asynchronous worker body)
  * `src/core/concurrent_orchestrator.py` (result handler)

Python strings are modelled as `List Char` (`Text`); the token counter is an
arbitrary function `Text → Nat`; Python floats that arise as ratios of machine
integers are modelled exactly as rationals.
-/

/-- Python `str` values, modelled as lists of characters. -/
abbrev Text := List Char

namespace TokenCounter

/-!
Model of `TokenCounter.__new__` (src/utils/token_counter.py).

The class-level mutable state consists of `_instance` (here: the identity of
the allocated object, a `Nat` tag) and `_encoding` (here: only the number of
times `tiktoken.get_encoding` has been executed).  The double-checked locking
collapses, in the sequential interleaving model, to a single check of
`_instance is None`.
-/

/-- Class-level state of `TokenCounter`: the singleton slot `_instance`
(identified by an allocation tag), the number of times the tiktoken encoding
was loaded, and the next fresh allocation tag. -/
structure ClassState where
  instSlot : Option Nat
  encodingLoads : Nat
  nextId : Nat
  deriving Repr, DecidableEq

/-- The class state at process start: `_instance = None`, no encoding loaded. -/
def initClassState : ClassState := { instSlot := none, encodingLoads := 0, nextId := 0 }

/-- `TokenCounter.__new__`: if `_instance is None`, allocate a fresh object,
load the encoding once and store the instance; otherwise return the stored
instance.  (`__init__` is a no-op.) -/
def new : ClassState → ClassState × Nat
  | s =>
    match s.instSlot with
    | some i => (s, i)
    | none =>
        ({ instSlot := some s.nextId,
           encodingLoads := s.encodingLoads + 1,
           nextId := s.nextId + 1 }, s.nextId)

/-- Run `n` consecutive constructions `TokenCounter()` from state `s`,
returning the final class state and the list of returned objects. -/
def runNew (s : ClassState) : Nat → ClassState × List Nat
  | 0 => (s, [])
  | n + 1 =>
      let (s', i) := new s
      let (s'', is) := runNew s' n
      (s'', i :: is)

end TokenCounter

/-! ## Translation engine wrapper (`streaming_translator.py`) -/

namespace StreamingTranslator

/-- Outcome of the raw OpenAI streaming call performed by `_invoke_model` for
one attempt: either the accumulated response text (`""` when no content was
streamed, covering Python's `None` case) or an exception from the API call. -/
inductive RawCall where
  | ok (t : Text)
  | exn
  deriving Repr, DecidableEq

/-- Result of `_invoke_model` as observed by `_translate_chunk`: the returned
text, or a raised `TranslationError` with its `is_transient` flag. -/
inductive InvokeResult where
  | success (t : Text)
  | err (isTransient : Bool)
  deriving Repr, DecidableEq

/-- `_invoke_model`: an exception in the API call is re-raised as
`TranslationError(is_transient=True)`; an empty/missing response raises
`TranslationError(is_transient=False)`; otherwise the content is returned. -/
def invoke_model (engine : Nat → RawCall) (attempt : Nat) : InvokeResult :=
  match engine attempt with
  | .exn => .err true
  | .ok t => if t = [] then .err false else .success t

/-- Statistics of one `_translate_chunk` run: the returned value, the number
of `_invoke_model` invocations, and the number of `time.sleep` calls. -/
structure ChunkRun where
  result : Option Text
  invocations : Nat
  sleeps : Nat
  deriving Repr, DecidableEq

/-- The retry loop of `_translate_chunk`, starting at attempt number
`attempt` with `remaining` further attempts allowed after it
(`attempt = max_attempts - remaining`).  On a transient error it sleeps
(when `retry_backoff_seconds > 0`) and retries unless the current attempt is
the last one; a permanent error or a success ends the loop. -/
def translate_chunk_from (engine : Nat → RawCall) (backoffPos : Bool)
    (attempt : Nat) : Nat → ChunkRun
  | 0 =>
      match invoke_model engine attempt with
      | .success t => { result := some t, invocations := 1, sleeps := 0 }
      | .err _ => { result := none, invocations := 1, sleeps := 0 }
  | remaining + 1 =>
      match invoke_model engine attempt with
      | .success t => { result := some t, invocations := 1, sleeps := 0 }
      | .err false => { result := none, invocations := 1, sleeps := 0 }
      | .err true =>
          let rest := translate_chunk_from engine backoffPos (attempt + 1) remaining
          { result := rest.result,
            invocations := rest.invocations + 1,
            sleeps := rest.sleeps + (if backoffPos then 1 else 0) }

/-- `_translate_chunk(chunk_index, chunk_text)`: `max_attempts = max_retries + 1`
attempts starting at attempt 1; `retry_backoff_seconds` only matters through
its sign, so it is passed as the rational `backoff`. -/
def translate_chunk (engine : Nat → RawCall) (maxRetries : Nat) (backoff : ℚ) : ChunkRun :=
  translate_chunk_from engine (decide (0 < backoff)) 1 maxRetries

/-! ## Chunk planner (`chunk_generator`, src/core/streaming_translator.py) -/

/-- One entry of the internal `chunks` list of `chunk_generator`:
`(chunk_text, chunk_tokens, oversized)`. -/
structure PChunk where
  text : Text
  tokens : Nat
  oversized : Bool
  deriving Repr, DecidableEq

/-- The loop state of Phase 3 of `chunk_generator`: the line buffer, its
accumulated token count, the running `chunk_index`, and the finalized chunks. -/
structure ChunkAcc where
  buffer : Text
  currentTokens : Nat
  chunkIndex : Nat
  chunks : List PChunk
  deriving Repr, DecidableEq

/-- The body of the `for i, line in enumerate(lines)` loop of
`chunk_generator`, for one `line`.  `tc` is `token_counter.count_tokens`,
`maxTok` is `max_token_length`, `numChunks` and `target` are the Phase 2
quantities (the float `target_chunk_size` is modelled exactly as a rational). -/
def chunk_step (tc : Text → Nat) (maxTok : Nat) (numChunks : Nat) (target : ℚ)
    (s : ChunkAcc) (line : Text) : ChunkAcc :=
  let lineTok := tc line
  -- Handle oversized single line (AC-6)
  if s.buffer = [] ∧ maxTok < lineTok then
    { s with chunkIndex := s.chunkIndex + 1,
             chunks := s.chunks ++ [⟨line, lineTok, true⟩] }
  else
    let candidate := s.currentTokens + lineTok
    if s.buffer ≠ [] ∧ target ≤ (candidate : ℚ) then
      let chunksRemaining := numChunks - s.chunkIndex
      let shouldFinalize := 1 < chunksRemaining ∨ maxTok < candidate
      if shouldFinalize then
        let s1 : ChunkAcc :=
          { s with chunkIndex := s.chunkIndex + 1,
                   chunks := s.chunks ++ [⟨s.buffer, s.currentTokens, false⟩] }
        -- Check if the next line is oversized before buffering
        if maxTok < lineTok then
          { s1 with chunkIndex := s1.chunkIndex + 1,
                    chunks := s1.chunks ++ [⟨line, lineTok, true⟩],
                    buffer := [], currentTokens := 0 }
        else
          { s1 with buffer := line, currentTokens := lineTok }
      else
        -- Last chunk, accumulate remaining lines
        { s with buffer := s.buffer ++ line, currentTokens := candidate }
    else
      -- Accumulate line
      { s with buffer := s.buffer ++ line, currentTokens := candidate }

/-- The tail-merge step of `chunk_generator`: if there are at least
`MIN_CHUNKS_FOR_MERGE = 2` chunks, neither of the last two is oversized, the
last one's token count is below `0.7 * target_chunk_size` and the merge stays
within `max_token_length`, replace the last two chunks by their concatenation. -/
def merge_tail (maxTok : Nat) (target : ℚ) (chunks : List PChunk) : List PChunk :=
  match chunks.reverse with
  | last :: prev :: restRev =>
      if ¬last.oversized ∧ ¬prev.oversized ∧
          (last.tokens : ℚ) < (7 / 10 : ℚ) * target ∧
          prev.tokens + last.tokens ≤ maxTok then
        restRev.reverse ++ [⟨prev.text ++ last.text, prev.tokens + last.tokens, false⟩]
      else
        chunks
  | _ => chunks

/-- The planned chunks of `chunk_generator` together with their recorded token
counts and oversized flags (the tuples of the internal `chunks` list; in the
single-chunk case of Phase 2 the one emitted chunk carries the total count). -/
def chunk_plan (tc : Text → Nat) (maxTok : Nat) (lines : List Text) : List PChunk :=
  let lineTokens := lines.map tc
  let totalTokens := lineTokens.sum
  if totalTokens ≤ maxTok then
    [⟨lines.flatten, totalTokens, false⟩]
  else
    let numChunks := ⌈(totalTokens : ℚ) / (maxTok : ℚ)⌉₊
    let target := (totalTokens : ℚ) / (numChunks : ℚ)
    let final := lines.foldl (chunk_step tc maxTok numChunks target)
      { buffer := [], currentTokens := 0, chunkIndex := 0, chunks := [] }
    -- Capture final buffer if any content remains
    let chunks :=
      if final.buffer ≠ [] then
        final.chunks ++ [⟨final.buffer, final.currentTokens, false⟩]
      else final.chunks
    merge_tail maxTok target chunks

/-- `enumerate(chunks, start=k)`. -/
def enum_from (k : Nat) : List Text → List (Nat × Text)
  | [] => []
  | t :: ts => (k, t) :: enum_from (k + 1) ts

/-- `chunk_generator(lines)`: the yielded `(index, text)` pairs, numbered from 1
in order. -/
def chunk_generator (tc : Text → Nat) (maxTok : Nat) (lines : List Text) :
    List (Nat × Text) :=
  enum_from 1 ((chunk_plan tc maxTok lines).map PChunk.text)

end StreamingTranslator

/-! ## Helper lemmas -/

namespace TokenCounter

theorem runNew_stable (s : ClassState) (i : Nat) (h : s.instSlot = some i) :
    ∀ n : Nat, runNew s n = (s, List.replicate n i) := by
  intro n
  induction n with
  | zero => simp [runNew]
  | succ n ih => simp [runNew, new, h, ih, List.replicate_succ]

end TokenCounter

/-- C10: constructing `TokenCounter` is idempotent process-wide: any sequence of
`TokenCounter()` calls starting from the initial class state returns one and the
same object, and the tiktoken encoding is loaded at most once. -/
theorem token_counter_singleton (n : Nat) :
    (∀ a ∈ (TokenCounter.runNew TokenCounter.initClassState n).2,
      ∀ b ∈ (TokenCounter.runNew TokenCounter.initClassState n).2, a = b) ∧
    (TokenCounter.runNew TokenCounter.initClassState n).1.encodingLoads ≤ 1 := by
  match n with
  | 0 => simp [TokenCounter.runNew, TokenCounter.initClassState]
  | n + 1 =>
      have hstep :
          TokenCounter.runNew TokenCounter.initClassState (n + 1) =
            ({ instSlot := some 0, encodingLoads := 1, nextId := 1 },
              0 :: List.replicate n 0) := by
        simp [TokenCounter.runNew, TokenCounter.new, TokenCounter.initClassState,
          TokenCounter.runNew_stable
            ({ instSlot := some 0, encodingLoads := 1, nextId := 1 }) 0 rfl n]
      rw [hstep]
      constructor
      · intro a ha b hb
        have hall : ∀ x ∈ (0 : Nat) :: List.replicate n 0, x = 0 := by
          intro x hx
          rcases List.mem_cons.mp hx with hx | hx
          · exact hx
          · exact List.eq_of_mem_replicate hx
        rw [hall a ha, hall b hb]
      · simp

namespace StreamingTranslator

theorem translate_chunk_from_success (engine : Nat → RawCall) (b : Bool)
    (t : Text) (ht : t ≠ []) :
    ∀ k attempt remaining : Nat, k ≤ remaining →
    (∀ i, attempt ≤ i → i < attempt + k → engine i = .exn) →
    engine (attempt + k) = .ok t →
    translate_chunk_from engine b attempt remaining =
      { result := some t, invocations := k + 1, sleeps := if b then k else 0 } := by
  intro k
  induction k with
  | zero =>
      intro attempt remaining _ _ hok
      have hinv : invoke_model engine attempt = .success t := by
        simp [invoke_model, Nat.add_zero] at hok ⊢
        simp [hok, ht]
      cases remaining <;> simp [translate_chunk_from, hinv]
  | succ k ih =>
      intro attempt remaining hk hfail hok
      obtain ⟨r, rfl⟩ : ∃ r, remaining = r + 1 := by
        cases remaining with
        | zero => omega
        | succ r => exact ⟨r, rfl⟩
      have hexn : engine attempt = .exn := by
        exact hfail attempt (Nat.le_refl _) (by omega)
      have hinv : invoke_model engine attempt = .err true := by
        simp [invoke_model, hexn]
      have hrest := ih (attempt + 1) r (by omega)
        (fun i h1 h2 => hfail i (by omega) (by omega))
        (by have : attempt + 1 + k = attempt + (k + 1) := by omega
            rw [this]; exact hok)
      simp [translate_chunk_from, hinv, hrest]
      cases b <;> simp

theorem translate_chunk_from_exhaust (engine : Nat → RawCall) (b : Bool) :
    ∀ remaining attempt : Nat,
    (∀ i, attempt ≤ i → i ≤ attempt + remaining → engine i = .exn) →
    translate_chunk_from engine b attempt remaining =
      { result := none, invocations := remaining + 1,
        sleeps := if b then remaining else 0 } := by
  intro remaining
  induction remaining with
  | zero =>
      intro attempt hfail
      have hinv : invoke_model engine attempt = .err true := by
        simp [invoke_model, hfail attempt (Nat.le_refl _) (by omega)]
      simp [translate_chunk_from, hinv]
  | succ r ih =>
      intro attempt hfail
      have hinv : invoke_model engine attempt = .err true := by
        simp [invoke_model, hfail attempt (Nat.le_refl _) (by omega)]
      have hrest := ih (attempt + 1) (fun i h1 h2 => hfail i (by omega) (by omega))
      simp [translate_chunk_from, hinv, hrest]
      cases b <;> simp

end StreamingTranslator

/-- C3: `_translate_chunk` retry determinism.  If the engine raises a transient
failure on exactly the first `k ≤ max_retries` attempts and then succeeds with
non-empty text, the success value is returned after exactly `k+1` engine
invocations; if it raises transient failures on all `max_retries + 1` attempts,
`None` is returned after exactly `max_retries + 1` invocations.  In both cases
`time.sleep(retry_backoff_seconds)` runs once between consecutive attempts —
never after the last attempt and never when the backoff is 0. -/
theorem translate_chunk_retry_determinism
    (engine : Nat → StreamingTranslator.RawCall) (maxRetries k : Nat)
    (backoff : ℚ) (t : Text) :
    (k ≤ maxRetries →
      (∀ i, 1 ≤ i → i ≤ k → engine i = .exn) →
      engine (k + 1) = .ok t → t ≠ [] →
      StreamingTranslator.translate_chunk engine maxRetries backoff =
        { result := some t, invocations := k + 1,
          sleeps := if 0 < backoff then k else 0 }) ∧
    ((∀ i, 1 ≤ i → i ≤ maxRetries + 1 → engine i = .exn) →
      StreamingTranslator.translate_chunk engine maxRetries backoff =
        { result := none, invocations := maxRetries + 1,
          sleeps := if 0 < backoff then maxRetries else 0 }) := by
  constructor
  · intro hk hfail hok ht
    have h := StreamingTranslator.translate_chunk_from_success engine
      (decide (0 < backoff)) t ht k 1 maxRetries hk
      (fun i h1 h2 => hfail i h1 (by omega))
      (by have : 1 + k = k + 1 := by omega
          rw [this]; exact hok)
    rw [StreamingTranslator.translate_chunk, h]
    by_cases hb : 0 < backoff <;> simp [hb]
  · intro hfail
    have h := StreamingTranslator.translate_chunk_from_exhaust engine
      (decide (0 < backoff)) maxRetries 1
      (fun i h1 h2 => hfail i h1 (by omega))
    rw [StreamingTranslator.translate_chunk, h]
    by_cases hb : 0 < backoff <;> simp [hb]

/-- Witness for C3: a concrete engine failing transiently on attempts 1 and 2
and succeeding on attempt 3, run with `max_retries = 3` and backoff `1/2`;
and a concrete always-failing engine with `max_retries = 1` and backoff `0`. -/
theorem translate_chunk_retry_determinism_witness :
    StreamingTranslator.translate_chunk
        (fun i => if i ≤ 2 then .exn else .ok ['x']) 3 (1 / 2) =
      { result := some ['x'], invocations := 3, sleeps := 2 } ∧
    StreamingTranslator.translate_chunk (fun _ => .exn) 1 0 =
      { result := none, invocations := 2, sleeps := 0 } := by
  constructor
  · have h := (translate_chunk_retry_determinism
        (fun i => if i ≤ 2 then .exn else .ok ['x']) 3 2 (1 / 2) ['x']).1
      (by omega) (by intro i h1 h2; interval_cases i <;> rfl) (by rfl)
      (by simp)
    rw [h]
    norm_num
  · have h := (translate_chunk_retry_determinism
        (fun _ => .exn) 1 0 0 []).2
      (by intro i h1 h2; rfl)
    rw [h]
    norm_num

/-! ## Sequential / parallel executor (`_translate_sequential`,
`_translate_parallel`, `_write_translations`; src/core/streaming_translator.py) -/

namespace StreamingTranslator

/-- Python truthiness check `if translation:` applied to the value returned by
`_translate_chunk`: both `None` and the empty string count as a failure. -/
def truthy : Option Text → Option Text
  | some t => if t = [] then none else some t
  | none => none

/-- The `translated_results` dict after handling, in the given order, the
result of `_translate_chunk` for each chunk: each successful chunk contributes
the entry `chunk_index ↦ translation`.  For `_translate_sequential` the order
is the original chunk order; for `_translate_parallel` it is the order in
which the futures complete. -/
def collect_results (f : Nat → Text → Option Text) (order : List (Nat × Text)) :
    List (Nat × Text) :=
  order.filterMap (fun p => (truthy (f p.1 p.2)).map (fun t => (p.1, t)))

/-- Python `dict` lookup `results[chunk_index]` on an association list in which
each key occurs at most once. -/
def dict_get (k : Nat) : List (Nat × Text) → Option Text
  | [] => none
  | (k', v) :: rest => if k' = k then some v else dict_get k rest

/-- The two-character separator written after each chunk (`content + "\n\n"`). -/
def separator : Text := ['\n', '\n']

/-- `_write_translations(results, chunks, output_file)`: the bytes written to
the output file — the translations of the chunks present in `results`,
iterated in original chunk order, each followed by the separator. -/
def write_translations (results : List (Nat × Text)) (chunks : List (Nat × Text)) :
    Text :=
  ((chunks.filterMap (fun p => dict_get p.1 results)).map (fun c => c ++ separator)).flatten

/-- `_translate_sequential(chunks, ...)`: chunks are translated strictly in
order, then the output file is written. -/
def translate_sequential (f : Nat → Text → Option Text)
    (chunks : List (Nat × Text)) : Text :=
  write_translations (collect_results f chunks) chunks

/-- `_translate_parallel(chunks, ...)` with a deterministic per-chunk
translation `f`: every chunk is submitted, the futures complete in the
arbitrary order `completionOrder`, and the output file is written from the
collected results iterating the chunks in original order. -/
def translate_parallel (f : Nat → Text → Option Text)
    (chunks completionOrder : List (Nat × Text)) : Text :=
  write_translations (collect_results f completionOrder) chunks

theorem dict_get_collect_of_not_mem (f : Nat → Text → Option Text) (k : Nat) :
    ∀ l : List (Nat × Text), k ∉ l.map Prod.fst →
    dict_get k (collect_results f l) = none := by
  intro l
  induction l with
  | nil => intro _; rfl
  | cons p rest ih =>
      intro hk
      simp only [List.map_cons, List.mem_cons] at hk
      push_neg at hk
      have hrest := ih hk.2
      cases htr : truthy (f p.1 p.2) with
      | none => simpa [collect_results, htr] using hrest
      | some t =>
          simp only [collect_results, List.filterMap_cons, htr, Option.map_some]
          simpa [dict_get, Ne.symm hk.1] using hrest

theorem dict_get_collect (f : Nat → Text → Option Text) :
    ∀ l : List (Nat × Text), (l.map Prod.fst).Nodup →
    ∀ p ∈ l, dict_get p.1 (collect_results f l) = truthy (f p.1 p.2) := by
  intro l
  induction l with
  | nil => intro _ p hp; simp at hp
  | cons q rest ih =>
      intro hnd p hp
      have hnd' : (rest.map Prod.fst).Nodup := (List.nodup_cons.mp hnd).2
      have hqnotin : q.1 ∉ rest.map Prod.fst := (List.nodup_cons.mp hnd).1
      rcases List.mem_cons.mp hp with hp | hp
      · subst hp
        cases htr : truthy (f p.1 p.2) with
        | none =>
            simp only [collect_results, List.filterMap_cons, htr, Option.map_none]
            exact dict_get_collect_of_not_mem f p.1 rest hqnotin
        | some t =>
            simp [collect_results, List.filterMap_cons, htr, dict_get]
      · have hne : q.1 ≠ p.1 := by
          intro hEq
          exact hqnotin (hEq ▸ List.mem_map_of_mem Prod.fst hp)
        have hrest := ih hnd' p hp
        cases htr : truthy (f q.1 q.2) with
        | none => simpa [collect_results, htr] using hrest
        | some t =>
            simp only [collect_results, List.filterMap_cons, htr, Option.map_some]
            simpa [dict_get, hne] using hrest

theorem write_translations_canonical (f : Nat → Text → Option Text)
    (chunks l : List (Nat × Text)) (hnd : (l.map Prod.fst).Nodup)
    (hmem : ∀ p ∈ chunks, p ∈ l) :
    write_translations (collect_results f l) chunks =
      ((chunks.filterMap (fun p => truthy (f p.1 p.2))).map
        (fun c => c ++ separator)).flatten := by
  unfold write_translations
  congr 1
  congr 1
  apply List.filterMap_congr
  intro p hp
  exact dict_get_collect f l hnd p (hmem p hp)

end StreamingTranslator

/-- C1: order equivalence of the sequential (`max_workers == 1`) and parallel
(`max_workers > 1`) paths of `translate()`.  For any list of planned chunks
with distinct indices and any deterministic per-chunk translation, whatever
order the parallel futures complete in, both modes write the identical output
file, namely the successful chunks' translations in original chunk order, each
followed by the blank-line separator. -/
theorem sequential_parallel_order_equivalence
    (f : Nat → Text → Option Text) (chunks completionOrder : List (Nat × Text))
    (hperm : completionOrder.Perm chunks)
    (hnd : (chunks.map Prod.fst).Nodup) :
    StreamingTranslator.translate_parallel f chunks completionOrder =
      StreamingTranslator.translate_sequential f chunks ∧
    StreamingTranslator.translate_sequential f chunks =
      ((chunks.filterMap (fun p => StreamingTranslator.truthy (f p.1 p.2))).map
        (fun c => c ++ StreamingTranslator.separator)).flatten := by
  have hndOrder : (completionOrder.map Prod.fst).Nodup :=
    (hperm.map Prod.fst).nodup_iff.mpr hnd
  have hseq := StreamingTranslator.write_translations_canonical f chunks chunks hnd
    (fun p hp => hp)
  have hpar := StreamingTranslator.write_translations_canonical f chunks
    completionOrder hndOrder (fun p hp => hperm.mem_iff.mpr hp)
  refine ⟨?_, hseq⟩
  rw [StreamingTranslator.translate_parallel, StreamingTranslator.translate_sequential,
    hseq, hpar]

/-- Witness for C1: three chunks, the middle one failing, with the parallel
futures completing in reversed order. -/
theorem sequential_parallel_order_equivalence_witness :
    StreamingTranslator.translate_parallel
        (fun i _ => if i = 2 then none else some ['t', Char.ofNat (48 + i)])
        [(1, ['a']), (2, ['b']), (3, ['c'])]
        [(3, ['c']), (2, ['b']), (1, ['a'])] =
      StreamingTranslator.translate_sequential
        (fun i _ => if i = 2 then none else some ['t', Char.ofNat (48 + i)])
        [(1, ['a']), (2, ['b']), (3, ['c'])] ∧
    StreamingTranslator.translate_sequential
        (fun i _ => if i = 2 then none else some ['t', Char.ofNat (48 + i)])
        [(1, ['a']), (2, ['b']), (3, ['c'])] =
      ['t', '1', '\n', '\n', 't', '3', '\n', '\n'] := by
  have h := sequential_parallel_order_equivalence
    (fun i _ => if i = 2 then none else some ['t', Char.ofNat (48 + i)])
    [(1, ['a']), (2, ['b']), (3, ['c'])]
    [(3, ['c']), (2, ['b']), (1, ['a'])]
    (by decide) (by decide)
  refine ⟨h.1, h.2.trans ?_⟩
  rfl

/-! ## Chunk planner proofs -/

namespace StreamingTranslator

/-- All input text captured so far by the Phase-3 loop: finalized chunks
followed by the open buffer. -/
def acc_concat (s : ChunkAcc) : Text :=
  (s.chunks.map PChunk.text).flatten ++ s.buffer

theorem acc_concat_step (tc : Text → Nat) (maxTok numChunks : Nat) (target : ℚ)
    (s : ChunkAcc) (line : Text) :
    acc_concat (chunk_step tc maxTok numChunks target s line) =
      acc_concat s ++ line := by
  unfold chunk_step acc_concat
  dsimp only
  split_ifs with h1 h2 h3 h4 <;>
    simp_all [List.flatten_append, List.append_assoc]

theorem acc_concat_foldl (tc : Text → Nat) (maxTok numChunks : Nat) (target : ℚ) :
    ∀ (l : List Text) (s : ChunkAcc),
    acc_concat (l.foldl (chunk_step tc maxTok numChunks target) s) =
      acc_concat s ++ l.flatten := by
  intro l
  induction l with
  | nil => intro s; simp
  | cons x xs ih =>
      intro s
      simp only [List.foldl_cons, List.flatten_cons]
      rw [ih, acc_concat_step, List.append_assoc]

theorem merge_tail_flatten (maxTok : Nat) (target : ℚ) (chunks : List PChunk) :
    ((merge_tail maxTok target chunks).map PChunk.text).flatten =
      (chunks.map PChunk.text).flatten := by
  unfold merge_tail
  rcases h : chunks.reverse with _ | ⟨last, rest⟩
  · rfl
  rcases rest with _ | ⟨prev, restRev⟩
  · rfl
  have hchunks : chunks = restRev.reverse ++ [prev, last] := by
    have := congrArg List.reverse h
    simpa using this
  dsimp only
  split_ifs with hcond
  · subst hchunks
    simp [List.flatten_append, List.append_assoc]
  · rfl

theorem enum_from_map_snd : ∀ (k : Nat) (l : List Text),
    (enum_from k l).map Prod.snd = l := by
  intro k l
  induction l generalizing k with
  | nil => rfl
  | cons x xs ih => simp [enum_from, ih]

theorem enum_from_map_fst : ∀ (k : Nat) (l : List Text),
    (enum_from k l).map Prod.fst = List.range' k l.length := by
  intro k l
  induction l generalizing k with
  | nil => rfl
  | cons x xs ih => simp [enum_from, ih, List.range'_succ]

theorem enum_from_length : ∀ (k : Nat) (l : List Text),
    (enum_from k l).length = l.length := by
  intro k l
  induction l generalizing k with
  | nil => rfl
  | cons x xs ih => simp [enum_from, ih]

end StreamingTranslator

/-- C4: chunk completeness.  For every list of input lines and every token
counter, concatenating the texts yielded by `chunk_generator` in yield order
reproduces the concatenation of the input lines exactly, and the yielded chunk
indices are exactly `1, 2, ..., N` in increasing order with no gaps.
(`max_token_length` must be positive: with 0 the Python code raises
`ZeroDivisionError` in Phase 2.) -/
theorem chunk_generator_completeness
    (tc : Text → Nat) (maxTok : Nat) (lines : List Text) (hmax : 0 < maxTok) :
    ((StreamingTranslator.chunk_generator tc maxTok lines).map Prod.snd).flatten =
      lines.flatten ∧
    (StreamingTranslator.chunk_generator tc maxTok lines).map Prod.fst =
      List.range' 1 (StreamingTranslator.chunk_generator tc maxTok lines).length := by
  constructor
  · rw [StreamingTranslator.chunk_generator, StreamingTranslator.enum_from_map_snd]
    rw [StreamingTranslator.chunk_plan]
    split_ifs with htot
    · simp
    · rw [StreamingTranslator.merge_tail_flatten]
      split_ifs with hbuf
      · have h := StreamingTranslator.acc_concat_foldl tc maxTok
          (⌈(((lines.map tc).sum : Nat) : ℚ) / ((maxTok : Nat) : ℚ)⌉₊)
          ((((lines.map tc).sum : Nat) : ℚ) /
            ((⌈(((lines.map tc).sum : Nat) : ℚ) / ((maxTok : Nat) : ℚ)⌉₊ : Nat) : ℚ))
          lines { buffer := [], currentTokens := 0, chunkIndex := 0, chunks := [] }
        simp only [StreamingTranslator.acc_concat] at h
        simp only [List.map_append, List.flatten_append]
        simpa [List.append_assoc] using h
      · have h := StreamingTranslator.acc_concat_foldl tc maxTok
          (⌈(((lines.map tc).sum : Nat) : ℚ) / ((maxTok : Nat) : ℚ)⌉₊)
          ((((lines.map tc).sum : Nat) : ℚ) /
            ((⌈(((lines.map tc).sum : Nat) : ℚ) / ((maxTok : Nat) : ℚ)⌉₊ : Nat) : ℚ))
          lines { buffer := [], currentTokens := 0, chunkIndex := 0, chunks := [] }
        simp only [StreamingTranslator.acc_concat] at h
        push_neg at hbuf
        rw [hbuf] at h
        simpa using h
  · rw [StreamingTranslator.chunk_generator, StreamingTranslator.enum_from_map_fst,
      StreamingTranslator.enum_from_length]

/-- Witness for C4: two concrete lines with a length token counter and
`max_token_length = 10`. -/
theorem chunk_generator_completeness_witness :
    ((StreamingTranslator.chunk_generator List.length 10
        [['a', 'a', 'a', 'a', 'a'], ['b', 'b', 'b', 'b', 'b'], ['c', 'c', 'c', 'c', 'c']]).map
      Prod.snd).flatten =
      [['a', 'a', 'a', 'a', 'a'], ['b', 'b', 'b', 'b', 'b'],
        ['c', 'c', 'c', 'c', 'c']].flatten ∧
    (StreamingTranslator.chunk_generator List.length 10
        [['a', 'a', 'a', 'a', 'a'], ['b', 'b', 'b', 'b', 'b'], ['c', 'c', 'c', 'c', 'c']]).map
      Prod.fst =
      List.range' 1 (StreamingTranslator.chunk_generator List.length 10
        [['a', 'a', 'a', 'a', 'a'], ['b', 'b', 'b', 'b', 'b'],
          ['c', 'c', 'c', 'c', 'c']]).length :=
  chunk_generator_completeness List.length 10
    [['a', 'a', 'a', 'a', 'a'], ['b', 'b', 'b', 'b', 'b'], ['c', 'c', 'c', 'c', 'c']]
    (by norm_num)

namespace StreamingTranslator

/-- The boundedness property of a planned chunk: its recorded token count is
within `max_token_length`, or it is a single input line whose own token count
exceeds the bound. -/
def ChunkBounded (tc : Text → Nat) (maxTok : Nat) (seen : List Text) (c : PChunk) : Prop :=
  c.tokens ≤ maxTok ∨ (c.text ∈ seen ∧ c.tokens = tc c.text ∧ maxTok < c.tokens)

/-- Loop invariant of Phase 3: an empty buffer carries no tokens, the open
buffer's token count stays within the bound, and every finalized chunk is
bounded. -/
def StepInv (tc : Text → Nat) (maxTok : Nat) (seen : List Text) (s : ChunkAcc) : Prop :=
  (s.buffer = [] → s.currentTokens = 0) ∧
  s.currentTokens ≤ maxTok ∧
  (∀ c ∈ s.chunks, ChunkBounded tc maxTok seen c)

theorem chunkBounded_mono (tc : Text → Nat) (maxTok : Nat)
    (seen seen' : List Text) (hsub : ∀ x ∈ seen, x ∈ seen') (c : PChunk)
    (h : ChunkBounded tc maxTok seen c) : ChunkBounded tc maxTok seen' c := by
  rcases h with h | ⟨h1, h2, h3⟩
  · exact Or.inl h
  · exact Or.inr ⟨hsub _ h1, h2, h3⟩

theorem stepInv_step (tc : Text → Nat) (maxTok numChunks : Nat) (target : ℚ)
    (htc : tc [] = 0) (htarget : target ≤ (maxTok : ℚ))
    (seen : List Text) (s : ChunkAcc) (line : Text)
    (hinv : StepInv tc maxTok seen s) :
    StepInv tc maxTok (seen ++ [line]) (chunk_step tc maxTok numChunks target s line) := by
  obtain ⟨hbuf0, hcur, hchunks⟩ := hinv
  have hmono : ∀ c ∈ s.chunks, ChunkBounded tc maxTok (seen ++ [line]) c := by
    intro c hc
    exact chunkBounded_mono tc maxTok seen (seen ++ [line])
      (fun x hx => List.mem_append_left _ hx) c (hchunks c hc)
  have hline_mem : line ∈ seen ++ [line] := List.mem_append_right _ (List.mem_singleton.mpr rfl)
  unfold chunk_step
  dsimp only
  split_ifs with h1 h2 h3 h4
  · -- oversized single line with empty buffer
    refine ⟨fun h => hbuf0 h, hcur, ?_⟩
    intro c hc
    rcases List.mem_append.mp hc with hc | hc
    · exact hmono c hc
    · rcases List.mem_singleton.mp hc with rfl
      exact Or.inr ⟨hline_mem, rfl, h1.2⟩
  · -- finalize, then oversized next line emitted alone
    refine ⟨fun _ => rfl, Nat.zero_le _, ?_⟩
    intro c hc
    rcases List.mem_append.mp hc with hc | hc
    · rcases List.mem_append.mp hc with hc | hc
      · exact hmono c hc
      · rcases List.mem_singleton.mp hc with rfl
        exact Or.inl hcur
    · rcases List.mem_singleton.mp hc with rfl
      exact Or.inr ⟨hline_mem, rfl, h4⟩
  · -- finalize, new buffer starts with the line
    refine ⟨?_, ?_, ?_⟩
    · intro h
      dsimp at h ⊢
      rw [h] at *
      exact htc
    · dsimp
      omega
    · intro c hc
      rcases List.mem_append.mp hc with hc | hc
      · exact hmono c hc
      · rcases List.mem_singleton.mp hc with rfl
        exact Or.inl hcur
  · -- last chunk: accumulate remaining lines (candidate within the bound)
    refine ⟨?_, ?_, hmono⟩
    · intro h
      rcases List.append_eq_nil.mp h with ⟨hb, hl⟩
      exact absurd hb h2.1
    · dsimp
      push_neg at h3
      omega
  · -- plain accumulation
    have hcand : s.currentTokens + tc line ≤ maxTok := by
      by_cases hb : s.buffer = []
      · have h0 := hbuf0 hb
        have hlineTok : ¬maxTok < tc line := by
          intro hlt
          exact h1 ⟨hb, hlt⟩
        omega
      · -- buffer nonempty, so the accumulate branch means candidate < target
        have hlt : (↑(s.currentTokens + tc line) : ℚ) < target := by
          by_contra hge
          push_neg at hge
          exact h2 ⟨hb, hge⟩
        have : (↑(s.currentTokens + tc line) : ℚ) < (maxTok : ℚ) := lt_of_lt_of_le hlt htarget
        exact_mod_cast this.le
    refine ⟨?_, hcand, hmono⟩
    intro h
    rcases List.append_eq_nil.mp h with ⟨hb, hl⟩
    dsimp
    rw [hl] at *
    have h0 := hbuf0 hb
    omega

theorem stepInv_foldl (tc : Text → Nat) (maxTok numChunks : Nat) (target : ℚ)
    (htc : tc [] = 0) (htarget : target ≤ (maxTok : ℚ)) :
    ∀ (l : List Text) (seen : List Text) (s : ChunkAcc),
    StepInv tc maxTok seen s →
    StepInv tc maxTok (seen ++ l) (l.foldl (chunk_step tc maxTok numChunks target) s) := by
  intro l
  induction l with
  | nil => intro seen s h; simpa using h
  | cons x xs ih =>
      intro seen s h
      have hstep := stepInv_step tc maxTok numChunks target htc htarget seen s x h
      have := ih (seen ++ [x]) _ hstep
      simpa [List.append_assoc] using this

theorem merge_tail_bounded (tc : Text → Nat) (maxTok : Nat) (target : ℚ)
    (seen : List Text) (chunks : List PChunk)
    (h : ∀ c ∈ chunks, ChunkBounded tc maxTok seen c) :
    ∀ c ∈ merge_tail maxTok target chunks, ChunkBounded tc maxTok seen c := by
  unfold merge_tail
  rcases hrev : chunks.reverse with _ | ⟨last, rest⟩
  · exact h
  rcases rest with _ | ⟨prev, restRev⟩
  · exact h
  have hchunks : chunks = restRev.reverse ++ [prev, last] := by
    have := congrArg List.reverse hrev
    simpa using this
  dsimp only
  split_ifs with hcond
  · intro c hc
    rcases List.mem_append.mp hc with hc | hc
    · refine h c ?_
      rw [hchunks]
      exact List.mem_append_left _ hc
    · rcases List.mem_singleton.mp hc with rfl
      exact Or.inl hcond.2.2.2
  · exact h

/-- `target_chunk_size ≤ max_token_length` in the multi-chunk case. -/
theorem target_le_maxTok (total maxTok : Nat) (hmax : 0 < maxTok)
    (hlt : maxTok < total) :
    (total : ℚ) / ((⌈(total : ℚ) / (maxTok : ℚ)⌉₊ : Nat) : ℚ) ≤ (maxTok : ℚ) := by
  have hm : (0 : ℚ) < (maxTok : ℚ) := by exact_mod_cast hmax
  have htot : (0 : ℚ) < (total : ℚ) := by
    have : 0 < total := lt_trans hmax hlt
    exact_mod_cast this
  have hnpos : 0 < ⌈(total : ℚ) / (maxTok : ℚ)⌉₊ :=
    Nat.ceil_pos.mpr (div_pos htot hm)
  have hle : (total : ℚ) / (maxTok : ℚ) ≤ (⌈(total : ℚ) / (maxTok : ℚ)⌉₊ : ℚ) :=
    Nat.le_ceil _
  have hn : (0 : ℚ) < ((⌈(total : ℚ) / (maxTok : ℚ)⌉₊ : Nat) : ℚ) := by
    exact_mod_cast hnpos
  rw [div_le_iff hn]
  rw [div_le_iff hm] at hle
  nlinarith

end StreamingTranslator

/-- C5: chunk boundedness.  For every list of input lines, every chunk planned
by `chunk_generator` has a recorded token count at most `max_token_length`,
except a chunk consisting of a single line whose own token count exceeds
`max_token_length` (such a line is emitted alone as its own chunk).
Hypotheses: `max_token_length` is positive (with 0 the Python code raises
`ZeroDivisionError`), and the token counter assigns the empty string zero
tokens, as tiktoken's `cl100k_base` does. -/
theorem chunk_boundedness (tc : Text → Nat) (maxTok : Nat) (lines : List Text)
    (hmax : 0 < maxTok) (htc : tc [] = 0) :
    ∀ c ∈ StreamingTranslator.chunk_plan tc maxTok lines,
      c.tokens ≤ maxTok ∨
        (c.text ∈ lines ∧ c.tokens = tc c.text ∧ maxTok < c.tokens) := by
  rw [StreamingTranslator.chunk_plan]
  split_ifs with htot
  · intro c hc
    rcases List.mem_singleton.mp hc with rfl
    exact Or.inl htot
  · push_neg at htot
    set total := (lines.map tc).sum with htotal
    set numChunks := ⌈(total : ℚ) / (maxTok : ℚ)⌉₊ with hnum
    set target := (total : ℚ) / ((numChunks : Nat) : ℚ) with htargetDef
    have htarget : target ≤ (maxTok : ℚ) :=
      StreamingTranslator.target_le_maxTok total maxTok hmax htot
    have hinv0 : StreamingTranslator.StepInv tc maxTok [] 
        { buffer := [], currentTokens := 0, chunkIndex := 0, chunks := [] } :=
      ⟨fun _ => rfl, Nat.zero_le _, fun c hc => absurd hc (List.not_mem_nil c)⟩
    have hinv := StreamingTranslator.stepInv_foldl tc maxTok numChunks target htc
      htarget lines [] _ hinv0
    simp only [List.nil_append] at hinv
    obtain ⟨hbuf0, hcur, hchunks⟩ := hinv
    apply StreamingTranslator.merge_tail_bounded tc maxTok target lines
    intro c hc
    split_ifs at hc with hbuf
    · rcases List.mem_append.mp hc with hc | hc
      · exact hchunks c hc
      · rcases List.mem_singleton.mp hc with rfl
        exact Or.inl hcur
    · exact hchunks c hc

/-- Witness for C5: `max_token_length = 10` with the length token counter
(which gives the empty line 0) and a single 2-token line; the planned chunk is
within the bound. -/
theorem chunk_boundedness_witness :
    ({ text := ['a', 'b'], tokens := 2, oversized := false } :
        StreamingTranslator.PChunk) ∈
      StreamingTranslator.chunk_plan List.length 10 [['a', 'b']] ∧
    ((2 : Nat) ≤ 10 ∨
      (['a', 'b'] ∈ [[('a' : Char), 'b']] ∧
        (2 : Nat) = List.length ['a', 'b'] ∧ 10 < (2 : Nat))) :=
  ⟨by decide,
    chunk_boundedness List.length 10 [['a', 'b']] (by norm_num) rfl
      { text := ['a', 'b'], tokens := 2, oversized := false } (by decide)⟩

/-! ## File watcher (`src/core/file_watcher.py`)

The watcher's file is modelled as a `Text`; sizes and offsets count its
elements, identifying the byte and character units that the Python code mixes
(it stats byte sizes but reads character counts, which coincide on ASCII).
Each mutating method is one atomic step; the translation callback's outcome is
an environment input `callbackOk`.  `_load_state` runs only at construction and
is modelled by the `loadedOffset` argument of `init_state` (0 for a missing or
corrupt state file). -/

namespace FileWatcher

/-- Constructor arguments that matter to the state machine. -/
structure Config where
  tc : Text → Nat
  minTokens : Nat
  autoTranslate : Bool

/-- The watcher's mutable state: `_last_processed_offset`,
`_translation_ready`, `_ready_token_count`, `_next_threshold`,
`_accumulated_content`. -/
structure State where
  lastProcessedOffset : Nat
  translationReady : Bool
  readyTokenCount : Nat
  nextThreshold : Nat
  accumulatedContent : Text
  deriving Repr, DecidableEq

/-- `__init__` followed by `_load_state`: offset as loaded from disk (0 when
the state file is absent or corrupt), ready flag cleared, threshold at
`min_tokens`, empty accumulation buffer. -/
def init_state (cfg : Config) (loadedOffset : Nat) : State :=
  { lastProcessedOffset := loadedOffset, translationReady := false,
    readyTokenCount := 0, nextThreshold := cfg.minTokens,
    accumulatedContent := [] }

/-- `_handle_flush_mode(new_content, last_offset, current_size)`: append the
new bytes to the accumulation buffer, then — if there is content with a
positive token count — invoke the callback on all of it; on success advance
the offset to the current size and clear buffer and ready flag, on callback
failure leave the rest of the state as is. -/
def handle_flush_mode (cfg : Config) (newContent : Text) (currentSize : Nat)
    (callbackOk : Bool) (s : State) : State :=
  let acc := s.accumulatedContent ++ newContent
  let totalTokens := cfg.tc acc
  let s' : State := { s with accumulatedContent := acc }
  if acc ≠ [] ∧ 0 < totalTokens then
    if callbackOk then
      { s' with lastProcessedOffset := currentSize, accumulatedContent := [],
                translationReady := false }
    else s'
  else s'

/-- `_handle_user_prompted_mode(new_content)`: append the new bytes to the
accumulation buffer; if its token count reached `_next_threshold` and the
ready flag is not yet set, set it and record the token count. -/
def handle_user_prompted_mode (cfg : Config) (newContent : Text) (s : State) : State :=
  let acc := s.accumulatedContent ++ newContent
  let totalTokens := cfg.tc acc
  if s.nextThreshold ≤ totalTokens ∧ s.translationReady = false then
    { s with accumulatedContent := acc, translationReady := true,
             readyTokenCount := totalTokens }
  else
    { s with accumulatedContent := acc }

/-- `_handle_auto_translate_mode(new_content, last_offset, current_size,
flush)`: if flushing or the new slice reaches `min_tokens`, invoke the
callback with it; only if the callback does not raise, advance the offset to
the current size. -/
def handle_auto_translate_mode (cfg : Config) (newContent : Text)
    (currentSize : Nat) (flush : Bool) (callbackOk : Bool) (s : State) : State :=
  let tokenCount := cfg.tc newContent
  if flush = true ∨ cfg.minTokens ≤ tokenCount then
    if callbackOk then { s with lastProcessedOffset := currentSize }
    else s
  else s

/-- `_check_and_trigger(flush)` for one poll against the file contents `file`:
stat the size, read the slice `[last_offset, size)` if the file grew, and
dispatch to the flush / user-prompted / auto handler. -/
def check_and_trigger (cfg : Config) (file : Text) (callbackOk : Bool)
    (flush : Bool) (s : State) : State :=
  let currentSize := file.length
  let lastOffset := s.lastProcessedOffset
  if currentSize ≤ lastOffset then s
  else
    let newContent := file.drop lastOffset
    if newContent = [] then s
    else if flush = true ∧ cfg.autoTranslate = false then
      handle_flush_mode cfg newContent currentSize callbackOk s
    else if cfg.autoTranslate = false then
      handle_user_prompted_mode cfg newContent s
    else
      handle_auto_translate_mode cfg newContent currentSize flush callbackOk s

/-- `trigger_translation_manual()`: if not ready, return False; snapshot the
accumulated content; invoke the callback (its outcome is `callbackOk`); on
success advance the offset by the length of the translated content, strip
exactly that prefix from the buffer, advance the threshold by `min_tokens`
and clear the ready state. -/
def trigger_translation_manual (cfg : Config) (callbackOk : Bool) (s : State) :
    State × Bool :=
  if s.translationReady = false then (s, false)
  else
    let content := s.accumulatedContent
    if callbackOk = false then (s, false)
    else
      let contentBytes := content.length
      ({ s with
          lastProcessedOffset := s.lastProcessedOffset + contentBytes,
          accumulatedContent :=
            if content.isPrefixOf s.accumulatedContent then
              s.accumulatedContent.drop content.length
            else [],
          nextThreshold := s.nextThreshold + cfg.minTokens,
          translationReady := false,
          readyTokenCount := 0 }, true)

/-- The watcher operations after construction: a poll cycle of the monitoring
loop (`flush = false`), the final flush performed by `stop()`
(`flush = true`), a manual trigger, and `_save_state` (which does not touch
the in-memory state). -/
inductive Op where
  | check (file : Text) (callbackOk : Bool) (flush : Bool)
  | manual (callbackOk : Bool)
  | save

/-- One atomic watcher operation. -/
def step (cfg : Config) (s : State) : Op → State
  | .check file callbackOk flush => check_and_trigger cfg file callbackOk flush s
  | .manual callbackOk => (trigger_translation_manual cfg callbackOk s).1
  | .save => s

end FileWatcher

/-- C6: offset monotonicity.  No watcher operation (poll-cycle trigger, manual
trigger, flush, state save) ever assigns `_last_processed_offset` a value
smaller than its current value, and a successful auto-mode trigger sets it to
exactly the file size observed at that trigger. -/
theorem watcher_offset_monotone (cfg : FileWatcher.Config) (s : FileWatcher.State)
    (op : FileWatcher.Op) :
    s.lastProcessedOffset ≤ (FileWatcher.step cfg s op).lastProcessedOffset ∧
    (∀ (file : Text) (flush : Bool),
      cfg.autoTranslate = true →
      s.lastProcessedOffset < file.length →
      (flush = true ∨ cfg.minTokens ≤ cfg.tc (file.drop s.lastProcessedOffset)) →
      (FileWatcher.step cfg s (.check file true flush)).lastProcessedOffset =
        file.length) := by
  constructor
  · cases op with
    | check file callbackOk flush =>
        simp only [FileWatcher.step, FileWatcher.check_and_trigger]
        split_ifs with hsize hnew hflush hup
        · exact Nat.le_refl _
        · exact Nat.le_refl _
        · unfold FileWatcher.handle_flush_mode
          dsimp only
          split_ifs <;> simp <;> omega
        · unfold FileWatcher.handle_user_prompted_mode
          dsimp only
          split_ifs <;> simp
        · unfold FileWatcher.handle_auto_translate_mode
          dsimp only
          split_ifs <;> simp <;> omega
    | manual callbackOk =>
        simp only [FileWatcher.step, FileWatcher.trigger_translation_manual]
        split_ifs <;> simp
    | save => exact Nat.le_refl _
  · intro file flush hauto hgrow htrig
    simp only [FileWatcher.step, FileWatcher.check_and_trigger]
    have hsize : ¬file.length ≤ s.lastProcessedOffset := by omega
    have hnew : ¬file.drop s.lastProcessedOffset = [] := by
      intro h
      have := List.drop_eq_nil_iff_le.mp h
      omega
    have hflush : ¬(flush = true ∧ cfg.autoTranslate = false) := by
      simp [hauto]
    have hup : ¬cfg.autoTranslate = false := by simp [hauto]
    simp only [hsize, if_false, hnew, hflush, hup, ite_false]
    unfold FileWatcher.handle_auto_translate_mode
    dsimp only
    rcases htrig with h | h <;> simp [h]

/-- Witness for C6: a concrete auto-mode watcher at offset 1 polling a
4-character file whose new slice has 3 tokens with `min_tokens = 2`. -/
theorem watcher_offset_monotone_witness :
    ({ lastProcessedOffset := 1, translationReady := false, readyTokenCount := 0,
        nextThreshold := 2, accumulatedContent := [] } :
          FileWatcher.State).lastProcessedOffset ≤
      (FileWatcher.step ⟨List.length, 2, true⟩
        { lastProcessedOffset := 1, translationReady := false, readyTokenCount := 0,
          nextThreshold := 2, accumulatedContent := [] }
        (.check ['a', 'b', 'c', 'd'] true false)).lastProcessedOffset ∧
    (FileWatcher.step ⟨List.length, 2, true⟩
        { lastProcessedOffset := 1, translationReady := false, readyTokenCount := 0,
          nextThreshold := 2, accumulatedContent := [] }
        (.check ['a', 'b', 'c', 'd'] true false)).lastProcessedOffset =
      (['a', 'b', 'c', 'd'] : Text).length := by
  have h := watcher_offset_monotone ⟨List.length, 2, true⟩
    { lastProcessedOffset := 1, translationReady := false, readyTokenCount := 0,
      nextThreshold := 2, accumulatedContent := [] }
    (.check ['a', 'b', 'c', 'd'] true false)
  exact ⟨h.1, h.2 ['a', 'b', 'c', 'd'] false rfl (by norm_num) (by norm_num)⟩

/-- C7 (code bug): in user-prompted mode a poll cycle never advances
`_last_processed_offset` nor otherwise marks the read bytes as consumed, so
polling the same grown file twice appends the same bytes to the accumulation
buffer twice.  Concretely: watching the 2-byte file "ab" from offset 0, after
two poll cycles the buffer holds "abab", not the byte range [0, 2) = "ab"
claimed by the spec. -/
theorem user_prompted_poll_duplicates_bytes :
    (FileWatcher.step ⟨List.length, 1, false⟩
        (FileWatcher.step ⟨List.length, 1, false⟩
          (FileWatcher.init_state ⟨List.length, 1, false⟩ 0)
          (.check ['a', 'b'] true false))
        (.check ['a', 'b'] true false)).accumulatedContent =
      ['a', 'b', 'a', 'b'] ∧
    (FileWatcher.step ⟨List.length, 1, false⟩
        (FileWatcher.step ⟨List.length, 1, false⟩
          (FileWatcher.init_state ⟨List.length, 1, false⟩ 0)
          (.check ['a', 'b'] true false))
        (.check ['a', 'b'] true false)).lastProcessedOffset = 0 ∧
    (FileWatcher.step ⟨List.length, 1, false⟩
        (FileWatcher.step ⟨List.length, 1, false⟩
          (FileWatcher.init_state ⟨List.length, 1, false⟩ 0)
          (.check ['a', 'b'] true false))
        (.check ['a', 'b'] true false)).accumulatedContent ≠
      (['a', 'b'] : Text).drop
        (FileWatcher.step ⟨List.length, 1, false⟩
          (FileWatcher.step ⟨List.length, 1, false⟩
            (FileWatcher.init_state ⟨List.length, 1, false⟩ 0)
            (.check ['a', 'b'] true false))
          (.check ['a', 'b'] true false)).lastProcessedOffset := by
  refine ⟨?_, ?_, ?_⟩ <;> decide

namespace FileWatcher

/-- An operation whose shutdown flush (if it is one) had a successful
callback; polls, manual triggers and saves are unrestricted. -/
def Op.flushCallbackOk : Op → Prop
  | .check _ callbackOk flush => flush = true → callbackOk = true
  | _ => True

/-- Watcher states reachable in user-prompted mode from construction, through
poll cycles, manual triggers, state saves, and flushes whose callback
succeeded. -/
inductive ReachableUP (cfg : Config) : State → Prop where
  | init (loadedOffset : Nat) : ReachableUP cfg (init_state cfg loadedOffset)
  | next (s : State) (op : Op) : ReachableUP cfg s → op.flushCallbackOk →
      ReachableUP cfg (step cfg s op)

/-- The threshold/ready invariant together with the auxiliary fact that the
threshold never falls below `min_tokens`. -/
def ThreshInv (cfg : Config) (s : State) : Prop :=
  (s.translationReady = true ↔ s.nextThreshold ≤ cfg.tc s.accumulatedContent) ∧
  cfg.minTokens ≤ s.nextThreshold


theorem threshInv_flush (cfg : Config) (hmin : 1 ≤ cfg.minTokens)
    (htc0 : cfg.tc [] = 0)
    (hmono : ∀ a b : Text, cfg.tc a ≤ cfg.tc (a ++ b))
    (newContent : Text) (currentSize : Nat) (s : State)
    (hinv : ThreshInv cfg s) :
    ThreshInv cfg (handle_flush_mode cfg newContent currentSize true s) := by
  obtain ⟨hiff, hthr⟩ := hinv
  unfold handle_flush_mode
  dsimp only
  split_ifs with h1 h2
  · refine ⟨?_, hthr⟩
    dsimp only
    rw [htc0]
    constructor
    · intro h; cases h
    · intro h
      exfalso
      omega
  · exact absurd rfl h2
  · have horn : ¬(s.accumulatedContent ++ newContent ≠ []) ∨
        ¬(0 < cfg.tc (s.accumulatedContent ++ newContent)) := not_and_or.mp h1
    have htot : cfg.tc (s.accumulatedContent ++ newContent) = 0 := by
      rcases horn with h | h
      · push_neg at h
        rw [h, htc0]
      · omega
    refine ⟨?_, hthr⟩
    dsimp only
    rw [htot]
    constructor
    · intro hready
      have ha := hiff.mp hready
      have hb := hmono s.accumulatedContent newContent
      omega
    · intro hge
      exfalso
      omega

theorem threshInv_user_prompted (cfg : Config)
    (hmono : ∀ a b : Text, cfg.tc a ≤ cfg.tc (a ++ b))
    (newContent : Text) (s : State) (hinv : ThreshInv cfg s) :
    ThreshInv cfg (handle_user_prompted_mode cfg newContent s) := by
  obtain ⟨hiff, hthr⟩ := hinv
  unfold handle_user_prompted_mode
  dsimp only
  split_ifs with hcond
  · refine ⟨?_, hthr⟩
    dsimp only
    simp [hcond.1]
  · refine ⟨?_, hthr⟩
    dsimp only
    constructor
    · intro hready
      exact le_trans (hiff.mp hready) (hmono s.accumulatedContent newContent)
    · intro hge
      by_cases hready : s.translationReady = true
      · exact hready
      · have hrf : s.translationReady = false := by
          cases hb : s.translationReady
          · rfl
          · exact absurd hb hready
        exact (hcond ⟨hge, hrf⟩).elim

theorem threshInv_manual (cfg : Config) (hmin : 1 ≤ cfg.minTokens)
    (htc0 : cfg.tc [] = 0) (callbackOk : Bool) (s : State)
    (hinv : ThreshInv cfg s) :
    ThreshInv cfg (trigger_translation_manual cfg callbackOk s).1 := by
  obtain ⟨hiff, hthr⟩ := hinv
  unfold trigger_translation_manual
  dsimp only
  split_ifs with h1 h2 h3
  · exact ⟨hiff, hthr⟩
  · exact ⟨hiff, hthr⟩
  · refine ⟨?_, by dsimp only; omega⟩
    dsimp only
    rw [List.drop_length, htc0]
    constructor
    · intro h; cases h
    · intro h
      exfalso
      omega
  · refine ⟨?_, by dsimp only; omega⟩
    dsimp only
    rw [htc0]
    constructor
    · intro h; cases h
    · intro h
      exfalso
      omega

theorem threshInv_step (cfg : Config) (hauto : cfg.autoTranslate = false)
    (hmin : 1 ≤ cfg.minTokens) (htc0 : cfg.tc [] = 0)
    (hmono : ∀ a b : Text, cfg.tc a ≤ cfg.tc (a ++ b))
    (s : State) (op : Op) (hop : op.flushCallbackOk)
    (hinv : ThreshInv cfg s) : ThreshInv cfg (step cfg s op) := by
  cases op with
  | save => exact hinv
  | manual callbackOk => exact threshInv_manual cfg hmin htc0 callbackOk s hinv
  | check file callbackOk flush =>
      simp only [step, check_and_trigger]
      -- with `hauto` in scope the auto-translate branch is discharged directly
      split_ifs with hsize hnew hflush
      · exact hinv
      · exact hinv
      · have hok : callbackOk = true := hop hflush.1
        subst hok
        exact threshInv_flush cfg hmin htc0 hmono _ _ s hinv
      · exact threshInv_user_prompted cfg hmono _ s hinv

theorem threshInv_reachable (cfg : Config) (hauto : cfg.autoTranslate = false)
    (hmin : 1 ≤ cfg.minTokens) (htc0 : cfg.tc [] = 0)
    (hmono : ∀ a b : Text, cfg.tc a ≤ cfg.tc (a ++ b)) :
    ∀ s : State, ReachableUP cfg s → ThreshInv cfg s := by
  intro s h
  induction h with
  | init loadedOffset =>
      constructor
      · constructor
        · intro h; cases h
        · intro h
          simp only [init_state] at h
          rw [htc0] at h
          exfalso
          omega
      · simp [init_state]
  | next s op _ hop ih =>
      exact threshInv_step cfg hauto hmin htc0 hmono s op hop ih

end FileWatcher

/-- C8 (amended): in user-prompted mode, `_next_threshold` never decreases
under any operation and increases by exactly `min_tokens` on every successful
manual trigger; and in every state reachable through poll cycles, manual
triggers, state saves, and shutdown flushes whose callback succeeded, the
ready flag is true iff the token count of the accumulated content is at least
`_next_threshold`.  (After a shutdown flush whose callback *failed* the iff
can break — see the counterexample — because `_handle_flush_mode` appends the
new bytes without re-evaluating readiness.)  Hypotheses: positive
`min_tokens`, and a token counter that gives the empty string zero tokens and
is monotone under appending, as tiktoken's `cl100k_base` is. -/
theorem threshold_state_invariant (cfg : FileWatcher.Config)
    (hauto : cfg.autoTranslate = false) (hmin : 1 ≤ cfg.minTokens)
    (htc0 : cfg.tc [] = 0)
    (hmono : ∀ a b : Text, cfg.tc a ≤ cfg.tc (a ++ b)) :
    (∀ (s : FileWatcher.State) (op : FileWatcher.Op),
      s.nextThreshold ≤ (FileWatcher.step cfg s op).nextThreshold) ∧
    (∀ (s : FileWatcher.State) (callbackOk : Bool),
      (FileWatcher.trigger_translation_manual cfg callbackOk s).2 = true →
      (FileWatcher.trigger_translation_manual cfg callbackOk s).1.nextThreshold =
        s.nextThreshold + cfg.minTokens) ∧
    (∀ s : FileWatcher.State, FileWatcher.ReachableUP cfg s →
      (s.translationReady = true ↔
        s.nextThreshold ≤ cfg.tc s.accumulatedContent)) := by
  refine ⟨?_, ?_, ?_⟩
  · intro s op
    cases op with
    | save => exact Nat.le_refl _
    | manual callbackOk =>
        simp only [FileWatcher.step, FileWatcher.trigger_translation_manual]
        split_ifs <;> simp
    | check file callbackOk flush =>
        simp only [FileWatcher.step, FileWatcher.check_and_trigger]
        split_ifs
        · exact Nat.le_refl _
        · exact Nat.le_refl _
        · unfold FileWatcher.handle_flush_mode
          dsimp only
          split_ifs <;> simp
        · unfold FileWatcher.handle_user_prompted_mode
          dsimp only
          split_ifs <;> simp
  · intro s callbackOk hsucc
    simp only [FileWatcher.trigger_translation_manual] at hsucc ⊢
    by_cases h1 : s.translationReady = false
    · simp [h1] at hsucc
    · by_cases h2 : callbackOk = false
      · simp [h1, h2] at hsucc
      · simp [h1, h2]
  · intro s hreach
    exact (FileWatcher.threshInv_reachable cfg hauto hmin htc0 hmono s hreach).1

/-- Witness for C8: the length token counter with `min_tokens = 2`; a poll of
a 3-character file makes the watcher ready, a successful manual trigger then
advances the threshold from 2 to 4, and the reachable-state iff holds at the
polled state. -/
theorem threshold_state_invariant_witness :
    (FileWatcher.trigger_translation_manual ⟨List.length, 2, false⟩ true
        (FileWatcher.step ⟨List.length, 2, false⟩
          (FileWatcher.init_state ⟨List.length, 2, false⟩ 0)
          (.check ['a', 'b', 'c'] true false))).1.nextThreshold = 2 + 2 ∧
    ((FileWatcher.step ⟨List.length, 2, false⟩
        (FileWatcher.init_state ⟨List.length, 2, false⟩ 0)
        (.check ['a', 'b', 'c'] true false)).translationReady = true ↔
      (FileWatcher.step ⟨List.length, 2, false⟩
        (FileWatcher.init_state ⟨List.length, 2, false⟩ 0)
        (.check ['a', 'b', 'c'] true false)).nextThreshold ≤
        (FileWatcher.step ⟨List.length, 2, false⟩
          (FileWatcher.init_state ⟨List.length, 2, false⟩ 0)
          (.check ['a', 'b', 'c'] true false)).accumulatedContent.length) := by
  have h := threshold_state_invariant ⟨List.length, 2, false⟩ rfl
    (by norm_num) rfl (fun a b => by simp)
  constructor
  · have h2 := h.2.1
      (FileWatcher.step ⟨List.length, 2, false⟩
        (FileWatcher.init_state ⟨List.length, 2, false⟩ 0)
        (.check ['a', 'b', 'c'] true false)) true (by decide)
    rw [h2]
    decide
  · exact h.2.2 _
      (FileWatcher.ReachableUP.next _ _
        (FileWatcher.ReachableUP.init 0) (by intro hc; cases hc))

/-- C8 counterexample: the claimed iff fails as stated.  Starting the
user-prompted watcher (length token counter, `min_tokens = 1`) on the 1-byte
file "a" and performing the shutdown flush with a failing callback reaches a
state whose accumulated content has 1 token ≥ threshold 1 while the ready
flag is false: `_handle_flush_mode` appended the bytes without re-evaluating
readiness. -/
theorem threshold_state_iff_fails_after_failed_flush :
    ¬((FileWatcher.step ⟨List.length, 1, false⟩
        (FileWatcher.init_state ⟨List.length, 1, false⟩ 0)
        (.check ['a'] false true)).translationReady = true ↔
      (FileWatcher.step ⟨List.length, 1, false⟩
        (FileWatcher.init_state ⟨List.length, 1, false⟩ 0)
        (.check ['a'] false true)).nextThreshold ≤
        (FileWatcher.step ⟨List.length, 1, false⟩
          (FileWatcher.init_state ⟨List.length, 1, false⟩ 0)
          (.check ['a'] false true)).accumulatedContent.length) := by
  decide

/-! ## Translation worker (`src/core/translation_worker.py`) -/

namespace TranslationWorker

/-- The `TranslationResult` dataclass: `successes`, `failures`,
`duration_seconds`, `translated_text`, `start_offset`, `error` (the caught
exception, modelled by its message). -/
structure TranslationResult where
  successes : Nat
  failures : Nat
  durationSeconds : ℚ
  translatedText : Option Text
  startOffset : Nat
  error : Option String
  deriving Repr, DecidableEq

/-- The field names declared by the `TranslationResult` dataclass, in source
order. -/
def translationResultFields : List String :=
  ["successes", "failures", "duration_seconds", "translated_text",
    "start_offset", "error"]

/-- Python `.splitlines()` line-boundary characters. -/
def isLineBoundaryChar (c : Char) : Bool :=
  c = '\n' ∨ c = '\r' ∨ c = '\x0b' ∨ c = '\x0c' ∨ c = '\x1c' ∨ c = '\x1d' ∨
    c = '\x1e' ∨ c = '\x85' ∨ c = '\u2028' ∨ c = '\u2029'

/-- `str.splitlines(keepends=True)`: split at line boundaries, keeping them;
`"\r\n"` counts as a single boundary.  `acc` holds the current line reversed. -/
def splitlines_keepends_aux : Text → Text → List Text
  | acc, [] => if acc = [] then [] else [acc.reverse]
  | acc, '\r' :: '\n' :: rest =>
      (acc.reverse ++ ['\r', '\n']) :: splitlines_keepends_aux [] rest
  | acc, c :: rest =>
      if isLineBoundaryChar c then
        (acc.reverse ++ [c]) :: splitlines_keepends_aux [] rest
      else
        splitlines_keepends_aux (c :: acc) rest

/-- `content.splitlines(keepends=True)`. -/
def splitlines_keepends (content : Text) : List Text :=
  splitlines_keepends_aux [] content

/-- Modelled from the spec: outcome of one `_invoke_model` call as seen by the
worker's per-chunk `try`.  The classes `TransientTranslationError` and
`PermanentTranslationError` that `translation_worker.py` imports from
`streaming_translator` are defined nowhere under src/ (the module only defines
`TranslationError`); they are modelled from the spec's failure taxonomy of
§4.2/§7 — `TransientFailure` (retryable) and `PermanentFailure`
(non-retryable, including an empty response) — with any other exception
(`unexpectedErr`) escaping the per-chunk handler to the worker's outer
`except Exception`. -/
inductive WorkerCall where
  | ok (t : Text)
  | transientErr
  | permanentErr
  | unexpectedErr (msg : String)
  deriving Repr, DecidableEq

/-- The worker's per-chunk loop: translate each chunk, collecting translated
parts and success/failure counts; transient/permanent translation errors are
caught and counted, any other exception propagates (as `Except.error`). -/
def translate_chunks (invoke : Nat → Text → WorkerCall) :
    List (Nat × Text) → Except String (List Text × Nat × Nat)
  | [] => .ok ([], 0, 0)
  | (i, t) :: rest =>
      match invoke i t with
      | .ok tr =>
          match translate_chunks invoke rest with
          | .ok (parts, succ, fails) => .ok (tr :: parts, succ + 1, fails)
          | .error m => .error m
      | .transientErr =>
          match translate_chunks invoke rest with
          | .ok (parts, succ, fails) => .ok (parts, succ, fails + 1)
          | .error m => .error m
      | .permanentErr =>
          match translate_chunks invoke rest with
          | .ok (parts, succ, fails) => .ok (parts, succ, fails + 1)
          | .error m => .error m
      | .unexpectedErr m => .error m

/-- The outer `try` block of `_translate_worker`: split the content into
lines, plan chunks, translate them, and push one result; `Except.error m`
means an exception reached the outer handlers. -/
def worker_try_body (tc : Text → Nat) (maxTok : Nat)
    (invoke : Nat → Text → WorkerCall) (content : Text) (startOffset : Nat) :
    Except String (List TranslationResult) :=
  let lines0 := splitlines_keepends content
  let lines := if lines0 = [] then [content] else lines0
  let chunks := StreamingTranslator.chunk_generator tc maxTok lines
  if chunks = [] then
    .ok [{ successes := 0, failures := 0, durationSeconds := 0,
           translatedText := some [], startOffset := startOffset, error := none }]
  else
    match translate_chunks invoke chunks with
    | .error m => .error m
    | .ok (parts, succ, fails) =>
        let combined : Text :=
          if parts = [] then [] else List.intercalate StreamingTranslator.separator parts
        .ok [{ successes := succ, failures := fails, durationSeconds := 0,
               translatedText := some combined, startOffset := startOffset,
               error := none }]

/-- `_translate_worker(content, start_offset)`: the complete worker-thread
body, returning the list of results pushed onto the shared queue.  Exceptions
escaping the `try` block are caught by the `except` clauses, which push a
single result carrying the exception in its `error` field. -/
def translate_worker (tc : Text → Nat) (maxTok : Nat)
    (invoke : Nat → Text → WorkerCall) (content : Text) (startOffset : Nat) :
    List TranslationResult :=
  match worker_try_body tc maxTok invoke content startOffset with
  | .ok pushes => pushes
  | .error m =>
      [{ successes := 0, failures := 1, durationSeconds := 0,
         translatedText := none, startOffset := startOffset, error := some m }]

theorem worker_try_body_ok_singleton (tc : Text → Nat) (maxTok : Nat)
    (invoke : Nat → Text → WorkerCall) (content : Text) (startOffset : Nat)
    (l : List TranslationResult)
    (h : worker_try_body tc maxTok invoke content startOffset = .ok l) :
    l.length = 1 := by
  unfold worker_try_body at h
  dsimp only at h
  generalize hch : StreamingTranslator.chunk_generator tc maxTok
      (if splitlines_keepends content = [] then [content]
        else splitlines_keepends content) = chunks at h
  split_ifs at h with hempty
  · cases h
    rfl
  · rcases htr : translate_chunks invoke chunks with m | triple
    · rw [htr] at h
      cases h
    · rw [htr] at h
      rcases triple with ⟨parts, succ, fails⟩
      cases h
      rfl

end TranslationWorker

/-- C9: for every input content and offset, and every per-chunk behavior of
the translator (success, transient failure, permanent failure, or any
unexpected exception), one invocation of `_translate_worker` pushes exactly
one result onto the shared result queue, and when an unexpected exception
escapes the per-chunk handling it is caught and reported through the pushed
result's `error` field rather than escaping the thread.  (`max_token_length`
positive as in C4/C5; a `ZeroDivisionError` from a zero bound would likewise
be caught by the outer handler.) -/
theorem worker_pushes_exactly_one (tc : Text → Nat) (maxTok : Nat)
    (invoke : Nat → Text → TranslationWorker.WorkerCall) (content : Text)
    (startOffset : Nat) (hmax : 0 < maxTok) :
    (TranslationWorker.translate_worker tc maxTok invoke content startOffset).length = 1 ∧
    (∀ m, TranslationWorker.worker_try_body tc maxTok invoke content startOffset =
        .error m →
      TranslationWorker.translate_worker tc maxTok invoke content startOffset =
        [{ successes := 0, failures := 1, durationSeconds := 0,
           translatedText := none, startOffset := startOffset,
           error := some m }]) := by
  constructor
  · unfold TranslationWorker.translate_worker
    rcases h : TranslationWorker.worker_try_body tc maxTok invoke content
        startOffset with m | l
    · rfl
    · exact TranslationWorker.worker_try_body_ok_singleton tc maxTok invoke
        content startOffset l h
  · intro m h
    unfold TranslationWorker.translate_worker
    rw [h]

/-- Witness for C9: a concrete worker run whose single chunk raises an
unexpected exception; exactly one result is pushed and it carries the
exception message. -/
theorem worker_pushes_exactly_one_witness :
    (TranslationWorker.translate_worker List.length 5
        (fun _ _ => .unexpectedErr "boom") ['a', 'b', 'c'] 7).length = 1 ∧
    (TranslationWorker.translate_worker List.length 5
        (fun _ _ => .unexpectedErr "boom") ['a', 'b', 'c'] 7) =
      [{ successes := 0, failures := 1, durationSeconds := 0,
         translatedText := none, startOffset := 7, error := some "boom" }] := by
  have h := worker_pushes_exactly_one List.length 5
    (fun _ _ => .unexpectedErr "boom") ['a', 'b', 'c'] 7 (by norm_num)
  exact ⟨h.1, h.2 "boom" (by rfl)⟩

/-! ## Orchestrator result handler (`_handle_result`,
src/core/concurrent_orchestrator.py) -/

namespace ConcurrentOrchestrator

/-- Orchestrator state touched by `_handle_result`: the cumulative metrics,
the active-translation counter, and the bytes appended to the output file. -/
structure OrchState where
  totalSuccesses : Nat
  totalFailures : Nat
  activeTranslations : Int
  output : Text
  deriving Repr, DecidableEq

/-- The attributes defined on `FileWatcher` instances
(src/core/file_watcher.py): constructor-assigned fields and methods. -/
def fileWatcherAttrs : List String :=
  ["file_path", "min_tokens", "polling_interval", "translation_callback",
    "token_counter", "state_file", "auto_translate", "_monitoring_thread",
    "_shutdown_event", "_offset_lock", "_last_processed_offset",
    "_translation_ready", "_ready_token_count", "_next_threshold",
    "_accumulated_content", "start", "stop", "get_last_offset",
    "is_translation_ready", "trigger_translation_manual",
    "get_current_threshold", "_monitor_loop", "_check_and_trigger",
    "_handle_flush_mode", "_handle_user_prompted_mode",
    "_handle_auto_translate_mode", "_load_state", "_save_state"]

/-- Python dynamic attribute lookup: accessing a name that the object does not
declare raises `AttributeError`. -/
def py_getattr (attrs : List String) (name : String) : Except String Unit :=
  if name ∈ attrs then .ok () else .error ("AttributeError: " ++ name)

/-- `_handle_result(result)`: update the metrics, append
`translated_text + "\n\n"` to the output file when present and non-empty,
then — for a successful result with the watcher present — advance the
watcher's offset to `start_offset + content_length_bytes` before decrementing
the active-translation counter last.  The two dynamic lookups involved in the
offset advance (`result.content_length_bytes` on the `TranslationResult`
dataclass and `update_offset_after_completion` on `FileWatcher`) are modelled
by `py_getattr` against the declared attribute lists; `Except.error` is an
exception propagating out of `_handle_result`, which skips every later
statement including the counter decrement. -/
def handle_result (watcherPresent : Bool) (r : TranslationWorker.TranslationResult)
    (s : OrchState) : Except String OrchState :=
  let s1 : OrchState :=
    { s with totalSuccesses := s.totalSuccesses + r.successes,
             totalFailures := s.totalFailures + r.failures }
  match r.translatedText with
  | some t =>
      if t ≠ [] then
        let s2 : OrchState :=
          { s1 with output := s1.output ++ t ++ StreamingTranslator.separator }
        if 0 < r.successes ∧ watcherPresent = true then
          match py_getattr TranslationWorker.translationResultFields
              "content_length_bytes" with
          | .error e => .error e
          | .ok _ =>
              -- dead branch: the dataclass declares no `content_length_bytes`
              match py_getattr fileWatcherAttrs "update_offset_after_completion" with
              | .error e => .error e
              | .ok _ => .ok { s2 with activeTranslations := s2.activeTranslations - 1 }
        else .ok { s2 with activeTranslations := s2.activeTranslations - 1 }
      else .ok { s1 with activeTranslations := s1.activeTranslations - 1 }
  | none => .ok { s1 with activeTranslations := s1.activeTranslations - 1 }

end ConcurrentOrchestrator

/-- C2 (code bug): the orchestrator's `_handle_result` does read
`result.content_length_bytes` and would advance the watcher's offset to
`start_offset + content_length_bytes` before decrementing the counter, but no
`WorkerResult` pushed by the worker carries a `content_length_bytes` field:
the `TranslationResult` dataclass declares only `successes`, `failures`,
`duration_seconds`, `translated_text`, `start_offset` and `error` (and
`FileWatcher` declares no `update_offset_after_completion` either).  On every
successful result the handler therefore raises `AttributeError`, the offset is
never advanced, and the active-translation counter is never decremented. -/
theorem handle_result_missing_content_length_bytes :
    "content_length_bytes" ∉ TranslationWorker.translationResultFields ∧
    "update_offset_after_completion" ∉ ConcurrentOrchestrator.fileWatcherAttrs ∧
    ConcurrentOrchestrator.handle_result true
        { successes := 1, failures := 0, durationSeconds := 0,
          translatedText := some ['t'], startOffset := 0, error := none }
        { totalSuccesses := 0, totalFailures := 0, activeTranslations := 1,
          output := [] } =
      .error "AttributeError: content_length_bytes" := by
  refine ⟨by decide, by decide, ?_⟩
  rfl
